import Mathlib

/-!
Shallow embedding of the caltrain-tracker arrival pipeline
(src/flows/data_processing.py together with src/utils/time_utils.py).

Conventions of the embedding:
* A local timestamp (a Python naive `datetime`) is an integer number of
  seconds counted from local midnight of an arbitrary reference day
  (day 0); `datetime.date()` is floor division by 86400 and
  `datetime.combine(date, min.time())` is `date * 86400`.
* A GTFS schedule time string `HH:MM:SS` (hours may exceed 24) is the
  `GTFSTime` structure below; a string that fails to parse into
  hours/minutes/seconds is `none : Option GTFSTime`.
* Fractional delay minutes are rationals (`delay_minutes` is a Python
  float obtained from `total_seconds() / 60`; all values reachable here
  are exact decimals, so ℚ models the arithmetic faithfully).
-/

namespace CaltrainTracker

/-- A parsed GTFS schedule time of day, `HH:MM:SS`, where `hours` may be
24 or more for trips running past midnight of the service day. -/
structure GTFSTime where
  hours : Nat
  minutes : Nat
  seconds : Nat
deriving DecidableEq

/-- Embeds `time_utils.normalize_time` (lines 11-28): if the hour field is
at least 24 it is replaced by `hour % 24` (the Python code rewrites the
two leading characters of the string; for the well-formed two-digit hours
the pipeline feeds it, that is exactly the modulo on the hours field);
otherwise the time is returned unchanged. -/
def normalize_time (t : GTFSTime) : GTFSTime :=
  if 24 ≤ t.hours then { t with hours := t.hours % 24 } else t

/-- The duration from midnight encoded by a GTFS time, in seconds
(`timedelta(hours=hours, minutes=minutes, seconds=seconds)`). -/
def GTFSTime.toSeconds (t : GTFSTime) : Int :=
  (t.hours : Int) * 3600 + (t.minutes : Int) * 60 + (t.seconds : Int)

/-- The calendar day of a timestamp: Python `datetime.date()` under the
seconds-from-day-zero convention, i.e. floor division by 86400. -/
def dateOf (ts : Int) : Int :=
  Int.fdiv ts 86400

/-- Embeds `time_utils.calculate_time_difference` (lines 30-86) on the
string branch the pipeline exercises: the scheduled datetime is rebuilt
from the date part of the actual arrival (`time2.date()`) plus the
scheduled hours/minutes/seconds as a timedelta, and the difference to the
actual arrival is returned in minutes.  A scheduled time that is missing
or fails to parse takes the `except`/fallback path of the source, which
returns 0. -/
def calculate_time_difference : Option GTFSTime → Int → ℚ
  | some t1, time2 => ((time2 : ℚ) - ((dateOf time2) * 86400 + t1.toSeconds : Int)) / 60
  | none, _ => 0

/-- The scheduled-time value the pipeline actually hands to delay
arithmetic: `data_processing.py` line 183 rewrites the `arrival_time`
column with `normalize_time` before line 205 passes it to
`calculate_time_difference`. -/
def pipeline_arrival_time (t : GTFSTime) : GTFSTime :=
  normalize_time t

/-- The delay in minutes the pipeline computes for one record: the
normalized scheduled time (line 183) fed to `calculate_time_difference`
against the actual arrival timestamp (lines 205-208). -/
def pipeline_delay (t : GTFSTime) (actual : Int) : ℚ :=
  calculate_time_difference (some (normalize_time t)) actual

/-- The delay severity labels of the pipeline. -/
inductive Severity where
  | onTime
  | minor
  | major
deriving DecidableEq

/-- Embeds the outlier clamp of `data_processing.py` lines 210-212: first
every delay above 500 is reset to 0, then every delay below -100 is reset
to 0 (sequential column updates on disjoint ranges, hence an if-chain). -/
def sanitize_delay (d : ℚ) : ℚ :=
  let d1 := if 500 < d then 0 else d
  if d1 < -100 then 0 else d1

/-- Embeds the severity assignment of lines 216-218: `Minor` where
`4 < delay ≤ 15`, `Major` where `delay > 15`, and the remaining rows are
filled with `On Time`. -/
def delay_severity (d : ℚ) : Severity :=
  if 4 < d ∧ d ≤ 15 then Severity.minor
  else if 15 < d then Severity.major
  else Severity.onTime

/-- Embeds line 215: `is_delayed = delay_minutes > 4`. -/
def is_delayed (d : ℚ) : Bool :=
  decide (4 < d)

/-- Embeds line 219, the clamp applied after severity assignment: any
remaining negative delay is reset to 0 in the published column. -/
def final_delay (d : ℚ) : ℚ :=
  if d < 0 then 0 else d

/-- The published fields of one processed arrival record that depend on
the computed delay. -/
structure DelayOutcome where
  delay_minutes : ℚ
  is_delayed : Bool
  severity : Severity
deriving DecidableEq

/-- The record-level composition of lines 210-219: the raw delay from
`calculate_time_difference` is sanitized, `is_delayed` and the severity
are derived from the sanitized value, and the published `delay_minutes`
additionally clamps negatives to 0. -/
def classify (raw : ℚ) : DelayOutcome :=
  let s := sanitize_delay raw
  { delay_minutes := final_delay s
    is_delayed := is_delayed s
    severity := delay_severity s }

/-- A concrete sanity check of Scenario A style arithmetic: a 6 minute
raw delay is kept and classified Minor. -/
example : classify 6 = { delay_minutes := 6, is_delayed := true, severity := Severity.minor } := by
  decide

example : classify 620 = { delay_minutes := 0, is_delayed := false, severity := Severity.onTime } := by
  decide

/-! ## The arrival resolver (data_processing.py lines 169-194) -/

/-- One row of the joined frame `df2`: a vehicle ping already merged with
its stop (so the haversine `distance` column of line 174 is present) and
with its schedule entry.  The service date column of line 180 is derived
from the timestamp, so it is not stored separately here. -/
structure Ping where
  trip_id : Nat
  stop_id : Nat
  timestamp : Int
  distance : ℚ
deriving DecidableEq

/-- The service date column of line 180: the calendar date of the ping
timestamp. -/
def Ping.date (p : Ping) : Int :=
  dateOf p.timestamp

/-- Whether a ping belongs to the `(trip_id, stop_id, date)` group used
by the `groupby` calls of lines 186 and 192. -/
def inGroup (t s : Nat) (d : Int) (p : Ping) : Bool :=
  p.trip_id == t && p.stop_id == s && p.date == d

/-- The rows of one `(trip_id, stop_id, date)` group, in the row order of
the joined frame. -/
def groupOf (rows : List Ping) (t s : Nat) (d : Int) : List Ping :=
  rows.filter (inGroup t s d)

/-- Whether a ping attains the minimum `distance` of its group (the
per-group minimum of line 186, which line 189 merges back so that only
rows at the minimum distance survive). -/
def isMinDistance (g : List Ping) (p : Ping) : Bool :=
  g.all (fun q => decide (p.distance ≤ q.distance))

/-- Embeds lines 185-194: the per-group minimum distance is computed
(line 186), the rows attaining it are kept in their original row order
(the inner merge of line 189 preserves the left frame order), and
`groupby(...).first()` (line 192) then takes the first such row.  This is
exactly the first row of the group, in row order, whose distance is the
group minimum. -/
def select_arrival (g : List Ping) : Option Ping :=
  g.find? (isMinDistance g)

/-! ## The aggregation step (data_processing.py lines 296-299 and 560-565) -/

/-- One processed arrival record as consumed by the aggregation tasks; it
carries the grouping key and the raw delay that `calculate_time_difference`
produced for it.  The published columns (`delay_minutes`, `is_delayed`,
`delay_severity`) are functions of `raw_delay` via `classify`. -/
structure DelayRecord where
  trip_id : Nat
  stop_id : Nat
  date : Int
  raw_delay : ℚ
deriving DecidableEq

/-- The stored `delay_severity` column of a record (lines 216-218). -/
def DelayRecord.severity (r : DelayRecord) : Severity :=
  delay_severity (sanitize_delay r.raw_delay)

/-- The stored `is_delayed` column of a record (line 215). -/
def DelayRecord.delayed (r : DelayRecord) : Bool :=
  is_delayed (sanitize_delay r.raw_delay)

/-- Whether two records share the `(trip_id, stop_id, date)` key used by
`drop_duplicates` in `generate_summary_stats` (line 560). -/
def sameKey (a b : DelayRecord) : Bool :=
  a.trip_id == b.trip_id && a.stop_id == b.stop_id && a.date == b.date

/-- A record is kept by `drop_duplicates` when no already seen record
carries its `(trip_id, stop_id, date)` key; `seen` holds the records
kept so far. -/
def drop_duplicates_from (seen : List DelayRecord) :
    List DelayRecord → List DelayRecord
  | [] => []
  | r :: rs =>
    if seen.any (fun x => sameKey x r) then drop_duplicates_from seen rs
    else r :: drop_duplicates_from (r :: seen) rs

/-- Embeds `drop_duplicates(subset=[trip_id, stop_id, date])` of line
560: the first record of each key is kept, later records with the same
key are dropped. -/
def drop_duplicates (rows : List DelayRecord) : List DelayRecord :=
  drop_duplicates_from [] rows

/-- Embeds lines 560-565 of `generate_summary_stats`: the records are
first de-duplicated on the `(trip_id, stop_id, date)` key, then the
on-time performance is the share of records with `is_delayed == False`,
times 100, or 0 when there are no records. -/
def on_time_performance (rows : List DelayRecord) : ℚ :=
  let u := drop_duplicates rows
  if 0 < u.length then
    ((u.filter (fun r => !(r.delayed))).length : ℚ) / (u.length : ℚ) * 100
  else 0

/-- Embeds the per-date severity distribution of
`generate_daily_stats_plot` lines 296-299:
`groupby(date)[delay_severity].value_counts(normalize=True) * 100`, i.e.
within the rows of one date, the percentage carrying one severity label.
The input is `processed_df` as produced by `process_arrival_data`; no
de-duplication is applied before the counts. -/
def severity_share (rows : List DelayRecord) (d : Int) (s : Severity) : ℚ :=
  let dayRows := rows.filter (fun r => r.date == d)
  if 0 < dayRows.length then
    ((dayRows.filter (fun r => r.severity == s)).length : ℚ) / (dayRows.length : ℚ) * 100
  else 0

/-- The per-date severity distribution as the specification words it:
the same counts, but taken over one record per unique
`(trip_id, stop_id, date)` key, i.e. over the de-duplicated set that
`on_time_performance` uses.  This definition follows the words of the
spec and exists to be compared with `severity_share`, the definition
taken from the source. -/
def severity_share_dedup_spec (rows : List DelayRecord) (d : Int) (s : Severity) : ℚ :=
  severity_share (drop_duplicates rows) d s

/-! ## The schedule join and the per-row delay computation
(data_processing.py lines 170 and 203-208) -/

/-- A raw vehicle ping as loaded from the ping store, before any join. -/
structure RawPing where
  trip_id : Nat
  stop_id : Nat
  timestamp : Int
deriving DecidableEq

/-- One `stop_times` schedule entry: a scheduled arrival time for a
`(trip_id, stop_id)` pair.  `arrival_time = none` models an entry whose
time string cannot be parsed into hours, minutes and seconds. -/
structure StopTimeEntry where
  trip_id : Nat
  stop_id : Nat
  arrival_time : Option GTFSTime
deriving DecidableEq

/-- Embeds the inner merge of line 170,
`pd.merge(raw_df, stop_times_df[...], on=[trip_id, stop_id])`: each raw
ping is paired with every schedule entry sharing its `(trip_id, stop_id)`
key, in left-frame row order; pings with no matching entry produce no
output row. -/
def merge_schedule (raw : List RawPing) (st : List StopTimeEntry) :
    List (RawPing × StopTimeEntry) :=
  raw.flatMap (fun r =>
    (st.filter (fun e => e.trip_id == r.trip_id && e.stop_id == r.stop_id)).map
      (fun e => (r, e)))

/-- One row of `comparison_df` just before line 205: the grouping key,
the actual arrival timestamp chosen by the resolver, and the scheduled
arrival time (already passed through `normalize_time` at line 183; a
time whose string failed to parse is `none` and was left unchanged by
the `except` branch of `normalize_time`). -/
structure ComparisonRow where
  trip_id : Nat
  stop_id : Nat
  date : Int
  actual_arrival_time : Int
  arrival_time : Option GTFSTime
deriving DecidableEq

/-- The raw delay of one comparison row (lines 205-208):
`calculate_time_difference(arrival_time, actual_arrival_time)`. -/
def row_delay (r : ComparisonRow) : ℚ :=
  calculate_time_difference r.arrival_time r.actual_arrival_time

/-- Embeds lines 205-219 applied row by row: every comparison row yields
a processed record (the `apply` of line 205 assigns a delay to every row,
dropping none), carrying the delay outcome computed by `classify`. -/
def process_delays (rows : List ComparisonRow) : List (ComparisonRow × DelayOutcome) :=
  rows.map (fun r => (r, classify (row_delay r)))

/-! ## Helper lemmas about `List.find?` and minimum selection -/

/-- A nonempty group of pings has a member of minimum distance. -/
theorem exists_min_distance : ∀ g : List Ping, g ≠ [] →
    ∃ p, p ∈ g ∧ ∀ q ∈ g, p.distance ≤ q.distance
  | [], h => absurd rfl h
  | [p], _ => ⟨p, by simp⟩
  | p :: q :: rest, _ => by
    obtain ⟨m, hm, hmin⟩ := exists_min_distance (q :: rest) (by simp)
    by_cases hpm : p.distance ≤ m.distance
    · refine ⟨p, List.mem_cons_self p _, ?_⟩
      intro r hr
      rcases List.mem_cons.mp hr with h1 | h2
      · rw [h1]
      · exact le_trans hpm (hmin r h2)
    · refine ⟨m, List.mem_cons_of_mem _ hm, ?_⟩
      intro r hr
      rcases List.mem_cons.mp hr with h1 | h2
      · rw [h1]; exact le_of_not_le hpm
      · exact hmin r h2

/-- When an element satisfying the predicate is, among the members that
satisfy it, the only one, `find?` returns it no matter where it sits. -/
theorem find?_of_unique_sat {α : Type} (p : α → Bool) :
    ∀ (l : List α) (r : α), r ∈ l → p r = true →
      (∀ q ∈ l, p q = true → q = r) → l.find? p = some r
  | [], r, hr, _, _ => absurd hr (List.not_mem_nil r)
  | x :: xs, r, hr, hpr, huniq => by
    by_cases hx : p x = true
    · have hxr : x = r := huniq x (List.mem_cons_self x xs) hx
      subst hxr
      simp [List.find?, hx]
    · have hrx : r ∈ xs := by
        rcases List.mem_cons.mp hr with h1 | h2
        · exact absurd (h1 ▸ hpr) hx
        · exact h2
      have ih := find?_of_unique_sat p xs r hrx hpr
        (fun q hq hpq => huniq q (List.mem_cons_of_mem _ hq) hpq)
      simpa [List.find?, hx] using ih

/-- In a list whose elements are pairwise related by `R` in list order,
the element `find?` returns is either equal to, or `R`-related to, every
member satisfying the predicate. -/
theorem find?_pairwise_rel {α : Type} (p : α → Bool) (R : α → α → Prop) :
    ∀ l : List α, l.Pairwise R → ∀ e, l.find? p = some e →
      ∀ q ∈ l, p q = true → e = q ∨ R e q
  | [], _, e, he => by simp [List.find?] at he
  | x :: xs, hpw, e, he => by
    rcases List.pairwise_cons.mp hpw with ⟨hx, hxs⟩
    by_cases hpx : p x = true
    · have hex : e = x := by
        have : some x = some e := by simpa [List.find?, hpx] using he
        exact (Option.some.inj this).symm
      subst hex
      intro q hq hpq
      rcases List.mem_cons.mp hq with h1 | h2
      · exact Or.inl h1.symm
      · exact Or.inr (hx q h2)
    · have he' : xs.find? p = some e := by simpa [List.find?, hpx] using he
      intro q hq hpq
      rcases List.mem_cons.mp hq with h1 | h2
      · exact absurd (h1 ▸ hpq) hpx
      · exact find?_pairwise_rel p R xs hxs e he' q h2 hpq

/-- Membership in a group plus the minimum property, written through the
boolean predicate the resolver uses. -/
theorem isMinDistance_eq_true_iff (g : List Ping) (p : Ping) :
    isMinDistance g p = true ↔ ∀ q ∈ g, p.distance ≤ q.distance := by
  simp [isMinDistance, List.all_eq_true]

/-- C1: for every `(trip_id, stop_id, service_date)` group with at least
one joined ping, the resolver emits exactly one ArrivalEvent (the single
`some` value of `select_arrival`), and the distance of the emitted ping
is at most the distance of every other ping of the group. -/
theorem resolver_emits_unique_min_distance (rows : List Ping) (t s : Nat) (d : Int)
    (h : groupOf rows t s d ≠ []) :
    ∃ e, select_arrival (groupOf rows t s d) = some e ∧
      e ∈ groupOf rows t s d ∧
      ∀ p ∈ groupOf rows t s d, e.distance ≤ p.distance := by
  obtain ⟨m, hm, hmin⟩ := exists_min_distance (groupOf rows t s d) h
  have hpred : isMinDistance (groupOf rows t s d) m = true :=
    (isMinDistance_eq_true_iff _ _).mpr hmin
  have hsome : ((groupOf rows t s d).find? (isMinDistance (groupOf rows t s d))).isSome := by
    rw [List.find?_isSome]
    exact ⟨m, hm, hpred⟩
  obtain ⟨e, he⟩ := Option.isSome_iff_exists.mp hsome
  refine ⟨e, he, List.mem_of_find?_eq_some he, ?_⟩
  exact (isMinDistance_eq_true_iff _ _).mp (List.find?_some he)

/-- Two pings of one group, arriving thirty seconds apart. -/
def pingA : Ping :=
  { trip_id := 101, stop_id := 7, timestamp := 30000, distance := 80 }

def pingB : Ping :=
  { trip_id := 101, stop_id := 7, timestamp := 30300, distance := 30 }

/-- Witness for C1: the two-ping group of `pingA` and `pingB` yields one
emitted event of minimal distance. -/
theorem resolver_emits_unique_min_distance_witness :
    ∃ e, select_arrival (groupOf [pingA, pingB] 101 7 0) = some e ∧
      e ∈ groupOf [pingA, pingB] 101 7 0 ∧
      ∀ p ∈ groupOf [pingA, pingB] 101 7 0, e.distance ≤ p.distance :=
  resolver_emits_unique_min_distance [pingA, pingB] 101 7 0 (by decide)

/-- Two pings of one group tied at the same minimum distance, the later
one first in row order. -/
def pingLate : Ping :=
  { trip_id := 5, stop_id := 3, timestamp := 7200, distance := 30 }

def pingEarly : Ping :=
  { trip_id := 5, stop_id := 3, timestamp := 3600, distance := 30 }

/-- Counterexample for C5: with two pings tied at the minimum distance
and the later-timestamped one first in row order, the resolver selects
the later ping, not the one with the earliest `recorded_at`. -/
theorem tie_not_broken_by_earliest_timestamp :
    select_arrival (groupOf [pingLate, pingEarly] 5 3 0) = some pingLate ∧
    pingEarly ∈ groupOf [pingLate, pingEarly] 5 3 0 ∧
    pingEarly.distance = pingLate.distance ∧
    pingEarly.timestamp < pingLate.timestamp := by
  decide

/-- C5 as amended: the resolver selects the first row, in input row
order, among those attaining the group minimum distance.  Consequently a
ping that is the unique minimum-distance member of its group is selected
regardless of where it appears, and ties are broken by the earliest
`recorded_at` exactly when the group rows appear in nondecreasing
timestamp order. -/
theorem select_arrival_order_semantics : ∀ g : List Ping,
    (∀ r ∈ g, (∀ q ∈ g, r.distance ≤ q.distance) →
      (∀ q ∈ g, q.distance = r.distance → q = r) →
      select_arrival g = some r) ∧
    (List.Pairwise (fun a b => a.timestamp ≤ b.timestamp) g →
      ∀ e, select_arrival g = some e →
        ∀ q ∈ g, q.distance = e.distance → e.timestamp ≤ q.timestamp) := by
  intro g
  constructor
  · intro r hr hmin huniq
    apply find?_of_unique_sat
    · exact hr
    · exact (isMinDistance_eq_true_iff _ _).mpr hmin
    · intro q hq hpq
      have hq' := (isMinDistance_eq_true_iff _ _).mp hpq
      exact huniq q hq (le_antisymm (hq' r hr) (hmin q hq))
  · intro hpw e he q hq hdq
    have hemin := (isMinDistance_eq_true_iff _ _).mp (List.find?_some he)
    have hpq : isMinDistance g q = true := by
      rw [isMinDistance_eq_true_iff]
      intro z hz
      rw [hdq]
      exact hemin z hz
    rcases find?_pairwise_rel _ _ g hpw e he q hq hpq with h1 | h2
    · rw [h1]
    · exact h2

/-! ## Past-midnight schedule times (claims about normalize_time and
calculate_time_difference) -/

/-- The calendar day of a timestamp written as a day number plus a
time of day within that day. -/
theorem dateOf_day_tod (day tod : Int) (h0 : 0 ≤ tod) (h1 : tod < 86400) :
    dateOf (day * 86400 + tod) = day := by
  unfold dateOf
  rw [Int.fdiv_eq_ediv _ (by norm_num)]
  rw [add_comm, Int.add_mul_ediv_right _ _ (by norm_num : (86400:ℤ) ≠ 0)]
  rw [Int.ediv_eq_zero_of_lt h0 h1]
  ring

/-- Counterexample for C2: for the raw schedule time 25:10:00 the value
the pipeline hands to delay arithmetic (the `arrival_time` column after
line 183) has hour 1, wrapped into 0-23, not an hour kept at or above
24. -/
theorem pipeline_arrival_time_wraps_past_midnight :
    pipeline_arrival_time { hours := 25, minutes := 10, seconds := 0 } =
      { hours := 1, minutes := 10, seconds := 0 } ∧
    ¬ 24 ≤ (pipeline_arrival_time { hours := 25, minutes := 10, seconds := 0 }).hours := by
  decide

/-- C2 as amended: `normalize_time` wraps an hour of 24 or more to
`hour % 24`, and the wrapped value is what delay arithmetic receives;
the past-midnight semantics are nevertheless preserved because
`calculate_time_difference` anchors the scheduled time to the calendar
date of the actual arrival: whenever the arrival ping falls on the day
after the service day, the computed delay equals the difference from the
raw (un-wrapped) schedule offset applied to the service day. -/
theorem delay_preserves_service_day_offset (t : GTFSTime) (day tod : Int)
    (h24 : 24 ≤ t.hours) (h48 : t.hours < 48) (h0 : 0 ≤ tod) (h1 : tod < 86400) :
    (pipeline_arrival_time t).hours = t.hours - 24 ∧
    pipeline_delay t ((day + 1) * 86400 + tod) =
      ((((day + 1) * 86400 + tod : Int) : ℚ) - ((day * 86400 + t.toSeconds : Int) : ℚ)) / 60 := by
  have hwrap : t.hours % 24 = t.hours - 24 := by
    omega
  have hc : ((t.hours - 24 : Nat) : Int) = (t.hours : Int) - 24 := by
    omega
  constructor
  · simp [pipeline_arrival_time, normalize_time, h24, hwrap]
  · simp only [pipeline_delay, calculate_time_difference]
    rw [dateOf_day_tod (day + 1) tod h0 h1]
    simp only [normalize_time, if_pos h24, GTFSTime.toSeconds, hwrap]
    push_cast [hc]
    ring

/-- Witness for the amended C2: the 25:10:00 schedule time with an
arrival at 01:15:00 on the next day. -/
theorem delay_preserves_service_day_offset_witness :
    (pipeline_arrival_time { hours := 25, minutes := 10, seconds := 0 }).hours = 1 ∧
    pipeline_delay { hours := 25, minutes := 10, seconds := 0 } 90900 = 5 := by
  have h := delay_preserves_service_day_offset
    { hours := 25, minutes := 10, seconds := 0 } 0 4500
    (by norm_num) (by norm_num) (by norm_num) (by norm_num)
  norm_num [GTFSTime.toSeconds] at h
  exact h

/-- C3: for the scheduled time 25:10:00 and an arrival ping at
01:15:00 of the following calendar day (timestamps in seconds from
midnight of the service day, so the ping is at 90900), the pipeline
computes a delay of 5 minutes; the delay equals the difference from the
rolled-over instant 01:10:00 of the next day (second 90600) and differs
from a comparison against 01:10:00 of the service day itself
(second 4200). -/
theorem scenario_b_past_midnight_delay :
    pipeline_delay { hours := 25, minutes := 10, seconds := 0 } 90900 = 5 ∧
    pipeline_delay { hours := 25, minutes := 10, seconds := 0 } 90900 =
      ((90900 : ℚ) - 90600) / 60 ∧
    pipeline_delay { hours := 25, minutes := 10, seconds := 0 } 90900 ≠
      ((90900 : ℚ) - 4200) / 60 := by
  have hdate : dateOf 90900 = 1 := by decide
  have h5 : pipeline_delay { hours := 25, minutes := 10, seconds := 0 } 90900 = 5 := by
    simp only [pipeline_delay, calculate_time_difference, hdate, normalize_time,
      GTFSTime.toSeconds]
    norm_num
  refine ⟨h5, ?_, ?_⟩
  · rw [h5]; norm_num
  · rw [h5]; norm_num

/-! ## Sanitization and severity classification -/

/-- The On Time branch of the severity if-chain. -/
theorem delay_severity_onTime_iff (d : ℚ) :
    delay_severity d = Severity.onTime ↔ d ≤ 4 := by
  unfold delay_severity
  split_ifs with h1 h2
  · constructor
    · intro h; exact absurd h (by decide)
    · intro h; exact absurd h (by linarith [h1.1])
  · constructor
    · intro h; exact absurd h (by decide)
    · intro h; exact absurd h (by linarith)
  · constructor
    · intro _
      by_contra hgt
      push_neg at hgt
      by_cases h15 : d ≤ 15
      · exact h1 ⟨hgt, h15⟩
      · exact h2 (by linarith)
    · intro _; rfl

/-- The Minor branch of the severity if-chain. -/
theorem delay_severity_minor_iff (d : ℚ) :
    delay_severity d = Severity.minor ↔ 4 < d ∧ d ≤ 15 := by
  unfold delay_severity
  split_ifs with h1 h2
  · exact ⟨fun _ => h1, fun _ => rfl⟩
  · constructor
    · intro h; exact absurd h (by decide)
    · intro h; exact absurd h h1
  · constructor
    · intro h; exact absurd h (by decide)
    · intro h; exact absurd h h1

/-- The Major branch of the severity if-chain. -/
theorem delay_severity_major_iff (d : ℚ) :
    delay_severity d = Severity.major ↔ 15 < d := by
  unfold delay_severity
  split_ifs with h1 h2
  · constructor
    · intro h; exact absurd h (by decide)
    · intro h; exact absurd h (by linarith [h1.2])
  · exact ⟨fun _ => h2, fun _ => rfl⟩
  · constructor
    · intro h; exact absurd h (by decide)
    · intro h; exact absurd h h2

/-- The published delay crosses each positive threshold exactly when the
sanitized delay does (the final clamp of line 219 only moves negative
values up to 0). -/
theorem final_delay_threshold (d c : ℚ) (hc : 0 ≤ c) :
    (final_delay d ≤ c ↔ d ≤ c) ∧ (c < final_delay d ↔ c < d) := by
  unfold final_delay
  split_ifs with h
  · constructor
    · constructor
      · intro _; linarith
      · intro _; exact hc
    · constructor
      · intro hlt; exact absurd hlt (by linarith)
      · intro hlt; exact absurd hlt (by linarith)
  · exact ⟨Iff.rfl, Iff.rfl⟩

/-- C4: a raw delay above 500 minutes or below -100 minutes is reset to
0 by the sanitization step, and the resulting record is published with
`delay_minutes = 0`, `is_delayed = False` and severity On Time.  The
clamp is a total function of the raw value, so it cannot fail. -/
theorem outlier_clamp_resets_to_zero (d : ℚ) (h : 500 < d ∨ d < -100) :
    sanitize_delay d = 0 ∧
    classify d =
      { delay_minutes := 0, is_delayed := false, severity := Severity.onTime } := by
  have hs : sanitize_delay d = 0 := by
    unfold sanitize_delay
    rcases h with h | h
    · rw [if_pos h]
      norm_num
    · rw [if_neg (by linarith : ¬ 500 < d), if_pos h]
  refine ⟨hs, ?_⟩
  unfold classify
  rw [hs]
  decide

/-- Witness for C4: the Scenario C raw delay of 620 minutes. -/
theorem outlier_clamp_resets_to_zero_witness :
    (500 < (620 : ℚ) ∨ (620 : ℚ) < -100) ∧
    sanitize_delay 620 = 0 ∧
    classify 620 =
      { delay_minutes := 0, is_delayed := false, severity := Severity.onTime } :=
  ⟨Or.inl (by norm_num), outlier_clamp_resets_to_zero 620 (Or.inl (by norm_num))⟩

/-- C7: the severity assignment is an exhaustive and disjoint partition
of the published records: each record carries exactly one of the three
labels, with On Time exactly when the published `delay_minutes` is at
most 4, Minor exactly when it lies in (4, 15], and Major exactly when it
exceeds 15. -/
theorem severity_partition_exhaustive_disjoint (raw : ℚ) :
    ((classify raw).severity = Severity.onTime ∨
      (classify raw).severity = Severity.minor ∨
      (classify raw).severity = Severity.major) ∧
    ((classify raw).severity = Severity.onTime ↔ (classify raw).delay_minutes ≤ 4) ∧
    ((classify raw).severity = Severity.minor ↔
      4 < (classify raw).delay_minutes ∧ (classify raw).delay_minutes ≤ 15) ∧
    ((classify raw).severity = Severity.major ↔ 15 < (classify raw).delay_minutes) := by
  have hsev : (classify raw).severity = delay_severity (sanitize_delay raw) := rfl
  have hdm : (classify raw).delay_minutes = final_delay (sanitize_delay raw) := rfl
  set d := sanitize_delay raw with hd
  rw [hsev, hdm]
  have h4 := final_delay_threshold d 4 (by norm_num)
  have h15 := final_delay_threshold d 15 (by norm_num)
  refine ⟨?_, ?_, ?_, ?_⟩
  · rcases delay_severity d with _ | _ | _
    · exact Or.inl rfl
    · exact Or.inr (Or.inl rfl)
    · exact Or.inr (Or.inr rfl)
  · rw [delay_severity_onTime_iff, h4.1]
  · rw [delay_severity_minor_iff, h4.2, h15.1]
  · rw [delay_severity_major_iff, h15.2]

/-- C10: every published record has a nonnegative `delay_minutes`; in
particular any record whose sanitized delay is zero or negative (an
early or exactly on-time train) is published with `delay_minutes = 0`,
so the published field cannot distinguish the two. -/
theorem published_delay_nonneg (raw : ℚ) :
    0 ≤ (classify raw).delay_minutes ∧
    (raw ≤ 0 → (classify raw).delay_minutes = 0) := by
  have hdm : (classify raw).delay_minutes = final_delay (sanitize_delay raw) := rfl
  rw [hdm]
  constructor
  · unfold final_delay
    split_ifs with h
    · exact le_refl 0
    · exact le_of_not_lt h
  · intro h
    simp only [final_delay, sanitize_delay]
    split_ifs <;> linarith

/-! ## Aggregation: on-time performance and severity distribution -/

/-- A record is On Time exactly when its stored `is_delayed` flag is
false: both columns are derived from the same sanitized delay. -/
theorem severity_onTime_iff_not_delayed (r : DelayRecord) :
    r.severity = Severity.onTime ↔ r.delayed = false := by
  unfold DelayRecord.severity DelayRecord.delayed
  rw [delay_severity_onTime_iff]
  simp [is_delayed, not_lt]

/-- De-duplication keeps the head of a nonempty list, so it never
returns an empty list for nonempty input. -/
theorem drop_duplicates_ne_nil (r : DelayRecord) (rs : List DelayRecord) :
    drop_duplicates (r :: rs) =
      r :: drop_duplicates_from [r] rs := by
  simp [drop_duplicates, drop_duplicates_from]

/-- Counterexample for C6: over the empty record set every de-duplicated
record vacuously has severity On Time, yet the computed on-time
performance is 0, not 100. -/
theorem on_time_performance_empty_counterexample :
    (∀ r ∈ drop_duplicates ([] : List DelayRecord), r.severity = Severity.onTime) ∧
    on_time_performance ([] : List DelayRecord) = 0 ∧
    on_time_performance ([] : List DelayRecord) ≠ 100 := by
  have h0 : on_time_performance ([] : List DelayRecord) = 0 := rfl
  refine ⟨?_, h0, ?_⟩
  · intro r hr
    exact absurd hr (List.not_mem_nil r)
  · rw [h0]
    norm_num

/-- C6 as amended: the on-time performance is the share of records with
`is_delayed == False` over the records de-duplicated on the
`(trip_id, stop_id, date)` key, times 100; it always lies in [0, 100],
and it equals exactly 100 when the record set is nonempty and every
de-duplicated record has severity On Time. -/
theorem on_time_performance_bounds_and_full (rows : List DelayRecord) :
    (0 ≤ on_time_performance rows ∧ on_time_performance rows ≤ 100) ∧
    (rows ≠ [] →
      (∀ r ∈ drop_duplicates rows, r.severity = Severity.onTime) →
      on_time_performance rows = 100) := by
  constructor
  · unfold on_time_performance
    by_cases hlen : 0 < (drop_duplicates rows).length
    · rw [if_pos hlen]
      have hle : ((drop_duplicates rows).filter (fun r => !(r.delayed))).length ≤
          (drop_duplicates rows).length :=
        List.length_filter_le _ _
      have hn : (0 : ℚ) < ((drop_duplicates rows).length : ℚ) := by
        exact_mod_cast hlen
      constructor
      · positivity
      · have hdiv : (((drop_duplicates rows).filter (fun r => !(r.delayed))).length : ℚ) /
            ((drop_duplicates rows).length : ℚ) ≤ 1 := by
          rw [div_le_one hn]
          exact_mod_cast hle
        calc (((drop_duplicates rows).filter (fun r => !(r.delayed))).length : ℚ) /
              ((drop_duplicates rows).length : ℚ) * 100
            ≤ 1 * 100 := by
              exact mul_le_mul_of_nonneg_right hdiv (by norm_num)
          _ = 100 := one_mul 100
    · rw [if_neg hlen]
      norm_num
  · intro hne hall
    obtain ⟨r, rs, rfl⟩ := List.exists_cons_of_ne_nil hne
    have hlen : 0 < (drop_duplicates (r :: rs)).length := by
      rw [drop_duplicates_ne_nil]
      simp
    have hfilter : (drop_duplicates (r :: rs)).filter (fun x => !(x.delayed)) =
        drop_duplicates (r :: rs) := by
      apply List.filter_eq_self.mpr
      intro a ha
      have := (severity_onTime_iff_not_delayed a).mp (hall a ha)
      simp [this]
    unfold on_time_performance
    rw [if_pos hlen, hfilter]
    have hn : ((drop_duplicates (r :: rs)).length : ℚ) ≠ 0 := by
      have : (0 : ℚ) < ((drop_duplicates (r :: rs)).length : ℚ) := by
        exact_mod_cast hlen
      exact ne_of_gt this
    rw [div_self hn, one_mul]

/-- Three records of one date: the first group appears twice (a
duplicate from the upstream join), the second once. -/
def recOnTimeDup : DelayRecord :=
  { trip_id := 1, stop_id := 1, date := 0, raw_delay := 0 }

def recMajor : DelayRecord :=
  { trip_id := 2, stop_id := 1, date := 0, raw_delay := 20 }

def dupRows : List DelayRecord := [recOnTimeDup, recOnTimeDup, recMajor]

/-- Counterexample for C9: on an input with a duplicated
`(trip_id, stop_id, date)` group, the severity distribution the daily
plot computes (over the raw rows) differs from the distribution over the
de-duplicated set that `on_time_performance` uses. -/
theorem severity_share_duplicates_matter :
    severity_share dupRows 0 Severity.onTime ≠
      severity_share_dedup_spec dupRows 0 Severity.onTime := by
  have hbeq : (Severity.major == Severity.onTime) = false := by decide
  have h1 : severity_share dupRows 0 Severity.onTime = 200 / 3 := by
    norm_num [severity_share, dupRows, recOnTimeDup, recMajor, DelayRecord.severity,
      delay_severity, sanitize_delay, List.filter, hbeq]
  have h2 : severity_share_dedup_spec dupRows 0 Severity.onTime = 50 := by
    norm_num [severity_share_dedup_spec, severity_share, drop_duplicates,
      drop_duplicates_from, sameKey, dupRows, recOnTimeDup, recMajor,
      DelayRecord.severity, delay_severity, sanitize_delay, List.filter, hbeq]
  rw [h1, h2]
  norm_num

/-- De-duplication is the identity on a list whose keys are pairwise
distinct and meet no already seen key. -/
theorem drop_duplicates_from_of_pairwise :
    ∀ (l seen : List DelayRecord),
      (∀ x ∈ seen, ∀ r ∈ l, sameKey x r = false) →
      List.Pairwise (fun a b => sameKey a b = false) l →
      drop_duplicates_from seen l = l
  | [], _, _, _ => rfl
  | r :: rs, seen, hseen, hpw => by
    rcases List.pairwise_cons.mp hpw with ⟨hr, hrs⟩
    have hany : (seen.any (fun x => sameKey x r)) = false := by
      rw [List.any_eq_false]
      intro x hx
      simp [hseen x hx r (List.mem_cons_self r rs)]
    have hrec : drop_duplicates_from (r :: seen) rs = rs := by
      apply drop_duplicates_from_of_pairwise rs (r :: seen)
      · intro x hx q hq
        rcases List.mem_cons.mp hx with h1 | h2
        · rw [h1]
          exact hr q hq
        · exact hseen x h2 q (List.mem_cons_of_mem _ hq)
      · exact hrs
    simp [drop_duplicates_from, hany, hrec]

/-- De-duplication does nothing when the keys are already distinct. -/
theorem drop_duplicates_of_pairwise (rows : List DelayRecord)
    (h : List.Pairwise (fun a b => sameKey a b = false) rows) :
    drop_duplicates rows = rows :=
  drop_duplicates_from_of_pairwise rows []
    (fun x hx => absurd hx (List.not_mem_nil x)) h

/-- C9 as amended: the daily severity distribution is computed over the
raw processed rows, with no de-duplication; it agrees with the
distribution over the de-duplicated set exactly on inputs that already
carry at most one row per `(trip_id, stop_id, date)` key. -/
theorem severity_share_dedup_agreement (rows : List DelayRecord) (d : Int) (s : Severity)
    (h : List.Pairwise (fun a b => sameKey a b = false) rows) :
    severity_share rows d s = severity_share_dedup_spec rows d s := by
  unfold severity_share_dedup_spec
  rw [drop_duplicates_of_pairwise rows h]

/-- Two records with distinct keys. -/
def recA9 : DelayRecord :=
  { trip_id := 11, stop_id := 2, date := 0, raw_delay := 3 }

def recB9 : DelayRecord :=
  { trip_id := 12, stop_id := 2, date := 0, raw_delay := 30 }

/-- Witness for the amended C9: on a duplicate-free input the two
distributions agree. -/
theorem severity_share_dedup_agreement_witness :
    severity_share [recA9, recB9] 0 Severity.onTime =
      severity_share_dedup_spec [recA9, recB9] 0 Severity.onTime :=
  severity_share_dedup_agreement [recA9, recB9] 0 Severity.onTime (by decide)

/-! ## Failure handling of the delay computation -/

/-- A comparison row whose scheduled time failed to parse. -/
def rowNoSchedule : ComparisonRow :=
  { trip_id := 9, stop_id := 4, date := 0, actual_arrival_time := 45000,
    arrival_time := none }

/-- Counterexample for C8: a row whose scheduled time is missing is not
excluded from the output; it is kept and published with the defaulted
delay 0 and severity On Time. -/
theorem failed_delay_defaults_to_zero :
    process_delays [rowNoSchedule] =
      [(rowNoSchedule,
        { delay_minutes := 0, is_delayed := false, severity := Severity.onTime })] ∧
    (process_delays [rowNoSchedule]).length ≠ 0 := by
  constructor
  · rfl
  · decide

/-- C8 as amended: pings whose `(trip_id, stop_id)` pair has no schedule
entry at all are excluded by the inner join and never reach the delay
computation; but a joined row whose scheduled time is missing or fails
to parse is not excluded — `calculate_time_difference` returns 0 for it,
every row receives a published outcome, and such a row is kept with
delay 0 and severity On Time. -/
theorem failure_exclusion_semantics :
    (∀ (raw : List RawPing) (st : List StopTimeEntry) (r : RawPing),
      (∀ e ∈ st, ¬(e.trip_id = r.trip_id ∧ e.stop_id = r.stop_id)) →
      ∀ pr ∈ merge_schedule raw st, pr.1 ≠ r) ∧
    (∀ rows : List ComparisonRow, (process_delays rows).length = rows.length) ∧
    (∀ rows : List ComparisonRow, ∀ r ∈ rows, r.arrival_time = none →
      (r, { delay_minutes := 0, is_delayed := false, severity := Severity.onTime }) ∈
        process_delays rows) := by
  refine ⟨?_, ?_, ?_⟩
  · intro raw st r hnone pr hpr
    rcases List.mem_flatMap.mp hpr with ⟨a, _, hmem⟩
    rcases List.mem_map.mp hmem with ⟨e, he, rfl⟩
    rcases List.mem_filter.mp he with ⟨hest, hkey⟩
    intro h1
    simp only [Bool.and_eq_true, beq_iff_eq] at hkey
    have h1a : a = r := h1
    refine hnone e hest ⟨?_, ?_⟩
    · rw [hkey.1, h1a]
    · rw [hkey.2, h1a]
  · intro rows
    unfold process_delays
    exact List.length_map _ _
  · intro rows r hr hnone
    have hout : classify (row_delay r) =
        { delay_minutes := 0, is_delayed := false, severity := Severity.onTime } := by
      have hzero : row_delay r = 0 := by
        unfold row_delay
        rw [hnone]
        rfl
      rw [hzero]
      decide
    have hmem : (r, classify (row_delay r)) ∈ process_delays rows :=
      List.mem_map_of_mem _ hr
    rw [hout] at hmem
    exact hmem

end CaltrainTracker
